import Mathlib

/-!
Verification of the shardman metadata store layer
(`src/go/internal/store/store.go`) against its design specification.

The Go source is shallowly embedded: JSON documents become an inductive
`Json` tree, the etcd-backed key/value store becomes an association list
from string keys to stored `Json` documents, and each Go function becomes
a Lean function with the same control flow.  Types from the
`internal/cluster` package (`ClusterData`, `StolonSpec`, `RepGroup`,
`Master`) and the external collaborators (`EtcdV3Store`, `StolonUpdate`,
`StolonStore.GetMaster`, k8s `strategicpatch`) are not under `src/`; they
are modelled from the specification, as marked in their doc comments.
-/

namespace Shardman

/-- A JSON document: the wire format of every value stored in etcd and of
every spec/patch handed to the merge engine. -/
inductive Json where
  | null : Json
  | bool (b : Bool) : Json
  | num (n : Int) : Json
  | str (s : String) : Json
  | arr (elems : List Json) : Json
  | obj (fields : List (String × Json)) : Json

/-- First binding of key `k` in an object's field list (JSON object lookup). -/
def jlookup (fs : List (String × Json)) (k : String) : Option Json :=
  match fs with
  | [] => none
  | (k₀, v) :: rest => if k₀ = k then some v else jlookup rest k

/-- Field lookup on a document: `none` on non-objects. -/
def jget (j : Json) (k : String) : Option Json :=
  match j with
  | .obj fs => jlookup fs k
  | _ => none

/-- Whether a document is the JSON `null` literal. -/
def Json.isNull (j : Json) : Bool :=
  match j with
  | .null => true
  | _ => false

/-- Whether a document is a scalar (boolean, number or string) leaf. -/
def isScalar (j : Json) : Bool :=
  match j with
  | .bool _ => true
  | .num _ => true
  | .str _ => true
  | _ => false

mutual

/-- Modelled from the spec: the strategic merge
(`k8s.io/apimachinery/pkg/util/strategicpatch.StrategicMergePatch`, an
external collaborator whose source is not under `src/`).  Per spec §4.2:
map-like documents merge recursively field by field; a field present only
in the base is retained; a scalar set by the patch replaces the base
value; a `null` in the patch deletes the field; every non-object patch
value (scalars and lists alike, the `StolonSpec` schema designating no
list merge keys) replaces the base value wholesale.  Fields of the base
untouched by the patch are carried through unmodified, recognized by the
schema or not. -/
def strategicMerge (base patchDoc : Json) : Json :=
  match base, patchDoc with
  | .obj bs, .obj ps =>
      .obj (bs.filter (fun kv => (jlookup ps kv.1).isNone) ++ mergePatchFields bs ps)
  | _, p => p
termination_by sizeOf patchDoc

/-- One output binding per non-null patch field, in patch order: recurse
when both sides are objects, otherwise take the patch value. -/
def mergePatchFields (bs ps : List (String × Json)) : List (String × Json) :=
  match ps with
  | [] => []
  | (k, v) :: rest =>
      (if v.isNull then []
       else
         match jlookup bs k with
         | some bv => [(k, strategicMerge bv v)]
         | none => [(k, v)]) ++ mergePatchFields bs rest
termination_by sizeOf ps

end

/-! ### Lemmas about object lookup and the merge -/

theorem jlookup_append (l₁ l₂ : List (String × Json)) (k : String) :
    jlookup (l₁ ++ l₂) k =
      (match jlookup l₁ k with
       | some v => some v
       | none => jlookup l₂ k) := by
  induction l₁ with
  | nil => simp [jlookup]
  | cons hd tl ih =>
      obtain ⟨k₀, v⟩ := hd
      by_cases h : k₀ = k <;> simp [jlookup, h, ih]

/-- Filtering an object list by a predicate that holds on every binding of
key `k` does not change the lookup of `k`. -/
theorem jlookup_filter (fs : List (String × Json)) (p : String × Json → Bool)
    (k : String) (hp : ∀ kv ∈ fs, kv.1 = k → p kv = true) :
    jlookup (fs.filter p) k = jlookup fs k := by
  induction fs with
  | nil => simp
  | cons hd tl ih =>
      obtain ⟨k₀, v⟩ := hd
      have htl := ih (fun kv h hk => hp kv (List.mem_cons_of_mem _ h) hk)
      by_cases hk : k₀ = k
      · subst hk
        have hpv : p (k₀, v) = true := hp (k₀, v) (List.mem_cons_self _ _) rfl
        simp [List.filter_cons, hpv, jlookup]
      · rcases hpv : p (k₀, v) with _ | _ <;>
          simp [List.filter_cons, hpv, jlookup, hk, htl]

/-- If every binding of key `k` fails the filter predicate, the filtered
list has no binding of `k`. -/
theorem jlookup_filter_none (fs : List (String × Json)) (p : String × Json → Bool)
    (k : String) (hp : ∀ kv ∈ fs, kv.1 = k → p kv = false) :
    jlookup (fs.filter p) k = none := by
  induction fs with
  | nil => simp [jlookup]
  | cons hd tl ih =>
      obtain ⟨k₀, v⟩ := hd
      have htl := ih (fun kv h hk => hp kv (List.mem_cons_of_mem _ h) hk)
      by_cases hk : k₀ = k
      · subst hk
        have hpv : p (k₀, v) = false := hp (k₀, v) (List.mem_cons_self _ _) rfl
        simp [List.filter_cons, hpv, htl]
      · rcases hpv : p (k₀, v) with _ | _ <;>
          simp [List.filter_cons, hpv, jlookup, hk, htl]

/-- A non-object patch value replaces the base wholesale. -/
theorem strategicMerge_of_not_obj (b p : Json) (h : ∀ fs, p ≠ .obj fs) :
    strategicMerge b p = p := by
  cases b <;> cases p <;> first
    | exact absurd rfl (h _)
    | simp [strategicMerge]

/-- The patch-derived part of a merged object binds no key the patch does
not bind. -/
theorem jlookup_mergePatchFields_none (bs ps : List (String × Json)) (k : String)
    (h : jlookup ps k = none) :
    jlookup (mergePatchFields bs ps) k = none := by
  induction ps with
  | nil => simp [mergePatchFields, jlookup]
  | cons hd rest ih =>
      obtain ⟨k₀, v⟩ := hd
      by_cases hk : k₀ = k
      · subst hk
        simp [jlookup] at h
      · simp only [jlookup, if_neg hk] at h
        have hrest := ih h
        rcases hnull : v.isNull with _ | _
        · cases hbs : jlookup bs k₀ <;>
            simp [mergePatchFields, hnull, hbs, jlookup_append, jlookup, hk, hrest]
        · simp [mergePatchFields, hnull, hrest]

/-- A non-null patch binding of `k` determines the merged object's
patch-derived binding of `k`. -/
theorem jlookup_mergePatchFields_some (bs ps : List (String × Json)) (k : String)
    (v : Json) (h : jlookup ps k = some v) (hnull : v.isNull = false) :
    jlookup (mergePatchFields bs ps) k =
      (match jlookup bs k with
       | some bv => some (strategicMerge bv v)
       | none => some v) := by
  induction ps with
  | nil => simp [jlookup] at h
  | cons hd rest ih =>
      obtain ⟨k₀, v₀⟩ := hd
      simp only [jlookup] at h
      by_cases hk : k₀ = k
      · subst hk
        simp at h
        subst h
        cases hbs : jlookup bs k₀ <;>
          simp [mergePatchFields, hnull, hbs, jlookup]
      · simp only [if_neg hk] at h
        have hrest := ih h
        rcases hnull₀ : v₀.isNull with _ | _
        · cases hbs : jlookup bs k₀ <;>
            simp [mergePatchFields, hnull₀, hbs, jlookup_append, jlookup, hk, hrest]
        · simp [mergePatchFields, hnull₀, hrest]

/-- A field the patch omits keeps its base value in the merged object. -/
theorem merge_retains_omitted (bs ps : List (String × Json)) (k : String)
    (h : jlookup ps k = none) :
    jget (strategicMerge (.obj bs) (.obj ps)) k = jlookup bs k := by
  have hfilter : jlookup (bs.filter (fun kv => (jlookup ps kv.1).isNone)) k
      = jlookup bs k := by
    apply jlookup_filter
    intro kv _ hkv
    simp [hkv, h]
  have hmp := jlookup_mergePatchFields_none bs ps k h
  simp only [strategicMerge, jget, jlookup_append, hmp, hfilter]
  cases jlookup bs k <;> simp

/-- A scalar field set by the patch takes the patch value in the merged
object. -/
theorem merge_overrides_scalar (bs ps : List (String × Json)) (k : String)
    (v : Json) (hv : isScalar v = true) (h : jlookup ps k = some v) :
    jget (strategicMerge (.obj bs) (.obj ps)) k = some v := by
  have hfilter : jlookup (bs.filter (fun kv => (jlookup ps kv.1).isNone)) k
      = none := by
    apply jlookup_filter_none
    intro kv _ hkv
    simp [hkv, h]
  have hnull : v.isNull = false := by cases v <;> simp_all [isScalar, Json.isNull]
  have hmerge : ∀ bv, strategicMerge bv v = v := by
    intro bv
    apply strategicMerge_of_not_obj
    intro fs hfs
    subst hfs
    simp [isScalar] at hv
  have hmp := jlookup_mergePatchFields_some bs ps k v h hnull
  simp only [strategicMerge, jget, jlookup_append, hmp, hfilter]
  cases jlookup bs k <;> simp [hmerge]

/-! ### The cluster data model

`cluster.StolonSpec`, `cluster.ClusterData`, `cluster.RepGroup` and
`cluster.Master` live in `internal/cluster`, which is not under `src/`;
they are modelled from the specification. -/

/-- Modelled from the spec: the Spec document (`cluster.StolonSpec`), a
hierarchical, partially-populated configuration document whose fields may
be individually unset ("inherit default").  The exact stolon field set is
not under `src/`; two representative optional fields stand for it (the
spec names an initialization mode field among the group-local defaults).
Unset fields are omitted from the JSON encoding (`omitempty`). -/
structure StolonSpec where
  initMode : Option String := none
  maxStandbys : Option Int := none
deriving DecidableEq, Repr

/-- The field names the Spec schema recognizes. -/
def specSchemaKeys : List String := ["initMode", "maxStandbys"]

/-- Go `json.Marshal` of a `StolonSpec`: set fields only. -/
def encodeSpec (s : StolonSpec) : Json :=
  .obj ((match s.initMode with
         | some v => [("initMode", Json.str v)]
         | none => []) ++
        (match s.maxStandbys with
         | some n => [("maxStandbys", Json.num n)]
         | none => []))

/-- Go `json.Unmarshal` of an optional string field: absent or `null`
leaves the field unset, a string sets it, any other shape is an error. -/
def decodeOptStr (o : Option Json) : Option (Option String) :=
  match o with
  | none => some none
  | some .null => some none
  | some (.str s) => some (some s)
  | some _ => none

/-- Go `json.Unmarshal` of an optional integer field. -/
def decodeOptInt (o : Option Json) : Option (Option Int) :=
  match o with
  | none => some none
  | some .null => some none
  | some (.num n) => some (some n)
  | some _ => none

/-- Go `json.Unmarshal` into a `StolonSpec`: reads the schema fields and,
as Go's decoder does, silently ignores every unrecognized field. -/
def decodeSpec (j : Json) : Option StolonSpec :=
  match j with
  | .obj fs =>
      match decodeOptStr (jlookup fs "initMode"),
            decodeOptInt (jlookup fs "maxStandbys") with
      | some im, some ms => some ⟨im, ms⟩
      | _, _ => none
  | _ => none

/-- Modelled from the spec: `cluster.ClusterData`, holding the superuser
credentials (username, password, auth method) and the authoritative Spec
document. -/
structure ClusterData where
  PgSuUsername : String := ""
  PgSuPassword : String := ""
  PgSuAuthMethod : String := ""
  StolonSpec : StolonSpec := {}
deriving DecidableEq, Repr

/-- Go `json.Marshal` of a `ClusterData`. -/
def encodeClusterData (cd : ClusterData) : Json :=
  .obj [("PgSuUsername", .str cd.PgSuUsername),
        ("PgSuPassword", .str cd.PgSuPassword),
        ("PgSuAuthMethod", .str cd.PgSuAuthMethod),
        ("StolonSpec", encodeSpec cd.StolonSpec)]

/-- Go `json.Unmarshal` of a string field: absent or `null` leaves the
zero value `""`, a string sets it, any other shape is an error. -/
def decodeStrField (o : Option Json) : Option String :=
  match o with
  | none => some ""
  | some .null => some ""
  | some (.str s) => some s
  | some _ => none

/-- Go `json.Unmarshal` into a `ClusterData` (absent or null spec leaves
the zero spec, standing for Go's nil `*StolonSpec`). -/
def decodeClusterData (j : Json) : Option ClusterData :=
  match j with
  | .obj fs =>
      match decodeStrField (jlookup fs "PgSuUsername"),
            decodeStrField (jlookup fs "PgSuPassword"),
            decodeStrField (jlookup fs "PgSuAuthMethod"),
            (match jlookup fs "StolonSpec" with
             | none => some (⟨none, none⟩ : StolonSpec)
             | some .null => some (⟨none, none⟩ : StolonSpec)
             | some sv => decodeSpec sv) with
      | some u, some p, some a, some sp => some ⟨u, p, a, sp⟩
      | _, _, _, _ => none
  | _ => none

/-- Modelled from the spec: `cluster.RepGroup`, identifying one
shard/replication group by its own store coordinates. -/
structure RepGroup where
  StolonName : String := ""
deriving DecidableEq, Repr

/-- Go `json.Marshal` of a `RepGroup`. -/
def encodeRepGroup (rg : RepGroup) : Json :=
  .obj [("StolonName", .str rg.StolonName)]

/-- Go `json.Unmarshal` into a `RepGroup`. -/
def decodeRepGroup (j : Json) : Option RepGroup :=
  match j with
  | .obj fs =>
      match decodeStrField (jlookup fs "StolonName") with
      | some n => some ⟨n⟩
      | none => none
  | _ => none

/-- Go `json.Marshal` of the `map[int]*RepGroup` directory: an object with
decimal keys.  The directory is carried as a list of pairs, standing for
the map together with the (deterministic here, unspecified in Go)
iteration order the orchestrator ranges in. -/
def encodeRepGroups (rgs : List (Int × RepGroup)) : Json :=
  .obj (rgs.map (fun p => (toString p.1, encodeRepGroup p.2)))

/-- Decimal digit run to a natural number (left to right). -/
def digitsToNat (cs : List Char) (acc : Nat) : Option Nat :=
  match cs with
  | [] => some acc
  | c :: rest =>
      if c.isDigit then digitsToNat rest (acc * 10 + (c.toNat - 48)) else none

/-- Go's decimal integer-key parse (`strconv`) used when unmarshalling a
JSON object into `map[int]*RepGroup`. -/
def parseIntKey (s : String) : Option Int :=
  match s.data with
  | [] => none
  | '-' :: rest =>
      if rest = [] then none
      else (digitsToNat rest 0).map (fun n => -(n : Int))
  | cs => (digitsToNat cs 0).map (fun n => (n : Int))

/-- Go `json.Unmarshal` of the directory's entry list. -/
def decodeRepGroupList (fs : List (String × Json)) : Option (List (Int × RepGroup)) :=
  match fs with
  | [] => some []
  | (k, v) :: rest =>
      match parseIntKey k, decodeRepGroup v, decodeRepGroupList rest with
      | some i, some rg, some tl => some ((i, rg) :: tl)
      | _, _, _ => none

/-- Go `json.Unmarshal` into `map[int]*RepGroup` (a stored JSON `null`
yields the nil map, modelled as the empty directory). -/
def decodeRepGroups (j : Json) : Option (List (Int × RepGroup)) :=
  match j with
  | .obj fs => decodeRepGroupList fs
  | .null => some []
  | _ => none

/-- Modelled from the spec: `cluster.Master`, the leader descriptor for a
replication group (network address, port), consumed read-only here. -/
structure Master where
  ListenAddress : String := ""
  Port : String := ""
deriving DecidableEq, Repr

/-! ### The versioned document store and the facade -/

/-- `KVPair` from the source: the `{Key, Value, LastIndex}` tuple a read
returns; `LastIndex` is the opaque version token. -/
structure KVPair where
  key : String
  value : Json
  lastIndex : Nat

/-- Modelled from the spec: `EtcdV3Store.Get` (the etcd wrapper is not
under `src/`): a missing key is the distinct `NotFound` outcome `none`,
never an error and never a zero-valued document.  The backing store's
state is the association list from keys to stored documents; the version
token is not consumed by this layer and is modelled as `0`. -/
def etcdGet (kv : List (String × Json)) (path : String) : Option KVPair :=
  (jlookup kv path).map (fun v => ⟨path, v, 0⟩)

/-- Modelled from the spec: `EtcdV3Store.Put`: overwrite or create. -/
def etcdPut (kv : List (String × Json)) (path : String) (v : Json) :
    List (String × Json) :=
  match kv with
  | [] => [(path, v)]
  | (k, w) :: rest =>
      if k = path then (path, v) :: rest else (k, w) :: etcdPut rest path v

/-- Split a character list at every `'/'` (never returns `[]`; adjacent
separators yield empty segments, as Go's path splitting does before
cleaning). -/
def splitOnSlash (cs : List Char) : List (List Char) :=
  match cs with
  | [] => [[]]
  | c :: rest =>
      match splitOnSlash rest with
      | [] => [[c]]
      | seg :: segs =>
          if c = '/' then [] :: seg :: segs else (c :: seg) :: segs

/-- The element loop of Go `path.Clean`, on the split segments, with the
output stack held most-recent-first: empty and `"."` segments are
dropped; `".."` pops the previous segment, is dropped at the root, and
is kept when there is nothing left to pop in a relative path; every
other segment is kept. -/
def cleanProc (rooted : Bool) (stack : List (List Char)) :
    List (List Char) → List (List Char)
  | [] => stack
  | e :: rest =>
      if e = [] then cleanProc rooted stack rest
      else if e = ['.'] then cleanProc rooted stack rest
      else if e = ['.', '.'] then
        match stack with
        | [] =>
            if rooted then cleanProc rooted [] rest
            else cleanProc rooted [e] rest
        | top :: stk =>
            if top = ['.', '.'] then cleanProc rooted (e :: top :: stk) rest
            else cleanProc rooted stk rest
      else cleanProc rooted (e :: stack) rest

/-- Rejoin cleaned segments with `'/'`. -/
def joinSegs : List (List Char) → List Char
  | [] => []
  | s :: rest =>
      match rest with
      | [] => s
      | _ => s ++ '/' :: joinSegs rest

/-- Models Go `filepath.Clean` (Unix separator): shortest lexical
equivalent of the path — iterated separators collapsed, `"."` and
resolvable `".."` elements eliminated, `".."` kept only at the start of
a relative path, `"."` returned for the empty result.  A path is rooted
when it starts with the separator, i.e. when its first split segment is
empty. -/
def goClean (s : String) : String :=
  if s.data = [] then "."
  else
    let segs := splitOnSlash s.data
    if segs.head? = some [] then
      String.mk ('/' :: joinSegs ((cleanProc true [] segs).reverse))
    else
      let body := joinSegs ((cleanProc false [] segs).reverse)
      if body = [] then "." else String.mk body

/-- Models Go `filepath.Join(a, b)`: join the elements starting from the
first non-empty one with the separator, then `Clean` the result. -/
def joinPath (a b : String) : String :=
  if a = "" then (if b = "" then "" else goClean b)
  else goClean (a ++ "/" ++ b)

/-- `NewClusterStore`: `storePath = filepath.Join("hodgepodge", cluster_name)`. -/
def storePathOf (clusterName : String) : String :=
  joinPath "hodgepodge" clusterName

/-- The key of the global cluster document. -/
def clusterDataPath (clusterName : String) : String :=
  joinPath (storePathOf clusterName) "clusterdata"

/-- The key of the replication-group directory document. -/
def repGroupsPath (clusterName : String) : String :=
  joinPath (storePathOf clusterName) "repgroups"

/-- The key of the current-masters directory document. -/
def mastersPath (clusterName : String) : String :=
  joinPath (storePathOf clusterName) "masters"

/-- `GetClusterData` from the source: read the key, pass `NotFound`
through as the `(nil, nil, nil)` triple (`.ok none`), decode errors as
errors. -/
def GetClusterData (clusterName : String) (kv : List (String × Json)) :
    Except String (Option (ClusterData × KVPair)) :=
  match etcdGet kv (clusterDataPath clusterName) with
  | none => .ok none
  | some pair =>
      match decodeClusterData pair.value with
      | none => .error "failed to unmarshal cluster data"
      | some cldata => .ok (some (cldata, pair))

/-- `PutClusterData` from the source: marshal and put (marshalling a
`ClusterData` value cannot fail in the model). -/
def PutClusterData (clusterName : String) (kv : List (String × Json))
    (cldata : ClusterData) : List (String × Json) :=
  etcdPut kv (clusterDataPath clusterName) (encodeClusterData cldata)

/-- `GetRepGroups` from the source. -/
def GetRepGroups (clusterName : String) (kv : List (String × Json)) :
    Except String (Option (List (Int × RepGroup) × KVPair)) :=
  match etcdGet kv (repGroupsPath clusterName) with
  | none => .ok none
  | some pair =>
      match decodeRepGroups pair.value with
      | none => .error "failed to unmarshal repgroups"
      | some rgs => .ok (some (rgs, pair))

/-- `PutRepGroups` from the source. -/
def PutRepGroups (clusterName : String) (kv : List (String × Json))
    (rgs : List (Int × RepGroup)) : List (String × Json) :=
  etcdPut kv (repGroupsPath clusterName) (encodeRepGroups rgs)

/-- `PutMasters` from the source (`map[int]*cluster.Master`, encoded like
the group directory). -/
def PutMasters (clusterName : String) (kv : List (String × Json))
    (masters : List (Int × Master)) : List (String × Json) :=
  etcdPut kv (mastersPath clusterName)
    (.obj (masters.map (fun p =>
      (toString p.1, Json.obj [("ListenAddress", .str p.2.ListenAddress),
                              ("Port", .str p.2.Port)]))))

/-! ### The merge entry point and the spec-propagation orchestrator -/

/-- `patchClusterSpec` from the source: marshal both specs, strategic
merge patch, unmarshal the merged bytes back into a `StolonSpec`
(marshalling a `StolonSpec` value cannot fail in the model; the final
unmarshal can). -/
def patchClusterSpec (spec patchSpec : StolonSpec) : Except String StolonSpec :=
  match decodeSpec (strategicMerge (encodeSpec spec) (encodeSpec patchSpec)) with
  | none => .error "failed to unmarshal patched cluster spec"
  | some newspec => .ok newspec

/-- One per-group push the orchestrator made: the arguments it passed to
`StolonUpdate(rg, rgid, patch, spec)`. -/
structure StolonCall where
  rgid : Int
  rg : RepGroup
  patchMode : Bool
  spec : StolonSpec
deriving DecidableEq, Repr

/-- Modelled from the spec: the outcome of the external group-update
collaborator `StolonUpdate` (§6), given per invocation as an oracle:
`none` is success, `some e` is that group's error. -/
def StolonOracle : Type := Int → RepGroup → Bool → StolonSpec → Option String

/-- The fanout loop of `UpdateStolonSpec`: push to each group in
directory order, always in patch mode, stopping at the first failure.
Returns the pushes attempted and the first error, if any. -/
def fanoutStolonUpdate (su : StolonOracle) (newspec : StolonSpec) :
    List (Int × RepGroup) → List StolonCall × Option String
  | [] => ([], none)
  | (rgid, rg) :: rest =>
      match su rgid rg true newspec with
      | some e => ([⟨rgid, rg, true, newspec⟩], some e)
      | none =>
          let r := fanoutStolonUpdate su newspec rest
          (⟨rgid, rg, true, newspec⟩ :: r.1, r.2)

/-- How one call to `UpdateStolonSpec` ended: normal return without
error, an error return, or a Go runtime panic from dereferencing a nil
pointer. -/
inductive UResult where
  | ok : UResult
  | err (e : String) : UResult
  | nilDeref : UResult
deriving DecidableEq, Repr

/-- The observable outcome of one `UpdateStolonSpec` call: how it ended,
the backing store's contents afterwards, and the per-group pushes it
made. -/
structure UpdateOutcome where
  res : UResult
  kv : List (String × Json)
  calls : List StolonCall

/-- `UpdateStolonSpec` from the source: read ClusterData, compute the new
spec (merge when `patchMode`, verbatim otherwise), read the group
directory, push the new spec to every group always in patch mode, and
only after every push succeeded write ClusterData back.  When the
ClusterData document is absent, `GetClusterData` returns the Go triple
`(nil, nil, nil)`; the source then evaluates `cldata.StolonSpec` on the
nil pointer, a runtime panic, embedded as `.nilDeref`. -/
def UpdateStolonSpec (su : StolonOracle) (clusterName : String)
    (kv : List (String × Json)) (spec : StolonSpec) (patchMode : Bool) :
    UpdateOutcome :=
  match GetClusterData clusterName kv with
  | .error e => ⟨.err e, kv, []⟩
  | .ok none => ⟨.nilDeref, kv, []⟩
  | .ok (some (cldata, _)) =>
      let currentspec := cldata.StolonSpec
      match (if patchMode then patchClusterSpec currentspec spec else .ok spec :
             Except String StolonSpec) with
      | .error e => ⟨.err e, kv, []⟩
      | .ok newspec =>
          match GetRepGroups clusterName kv with
          | .error e => ⟨.err e, kv, []⟩
          | .ok orgs =>
              match fanoutStolonUpdate su newspec ((orgs.map Prod.fst).getD []) with
              | (calls, some e) => ⟨.err e, kv, calls⟩
              | (calls, none) =>
                  ⟨.ok, PutClusterData clusterName kv
                    { cldata with StolonSpec := newspec }, calls⟩

/-! ### The connection resolver -/

/-- Go `map[string]string` lookup over the connection-parameter list. -/
def slookup (fs : List (String × String)) (k : String) : Option String :=
  match fs with
  | [] => none
  | (k₀, v) :: rest => if k₀ = k then some v else slookup rest k

/-- `GetSuConnstrMap` from the source.  The stolon store's master read
(`NewStolonStore`/`GetMaster`, not under `src/`) is modelled from the
spec as the collaborator outcome passed in: `.error` when the read fails
or the group is leaderless, `.ok m` when the group's recorded master is
`m`. -/
def GetSuConnstrMap (getMaster : Except String Master) (cldata : ClusterData) :
    Except String (List (String × String)) :=
  match getMaster with
  | .error e => .error e
  | .ok master =>
      let cp := [("user", cldata.PgSuUsername),
                 ("dbname", "postgres"),
                 ("host", master.ListenAddress),
                 ("port", master.Port)]
      .ok (if cldata.PgSuAuthMethod ≠ "trust"
           then cp ++ [("password", cldata.PgSuPassword)]
           else cp)

/-! ### Store and round-trip lemmas -/

theorem jlookup_etcdPut_self (kv : List (String × Json)) (p : String) (v : Json) :
    jlookup (etcdPut kv p v) p = some v := by
  induction kv with
  | nil => simp [etcdPut, jlookup]
  | cons hd rest ih =>
      obtain ⟨k, w⟩ := hd
      by_cases hk : k = p <;> simp [etcdPut, hk, jlookup, ih]

theorem jlookup_etcdPut_other (kv : List (String × Json)) (p q : String) (v : Json)
    (h : p ≠ q) : jlookup (etcdPut kv p v) q = jlookup kv q := by
  induction kv with
  | nil => simp [etcdPut, jlookup, h]
  | cons hd rest ih =>
      obtain ⟨k, w⟩ := hd
      by_cases hk : k = p
      · subst hk
        simp [etcdPut, jlookup, h, ih]
      · simp [etcdPut, hk, jlookup, ih]

/-- Overwriting a key with the value it already holds leaves the store
unchanged. -/
theorem etcdPut_of_jlookup_eq (kv : List (String × Json)) (p : String) (v : Json)
    (h : jlookup kv p = some v) : etcdPut kv p v = kv := by
  induction kv with
  | nil => simp [jlookup] at h
  | cons hd rest ih =>
      obtain ⟨k, w⟩ := hd
      by_cases hk : k = p
      · subst hk
        simp only [jlookup] at h
        simp at h
        simp [etcdPut, h]
      · simp only [jlookup, if_neg hk] at h
        simp [etcdPut, hk, ih h]

theorem decodeSpec_encodeSpec (s : StolonSpec) :
    decodeSpec (encodeSpec s) = some s := by
  obtain ⟨im, ms⟩ := s
  cases im <;> cases ms <;>
    simp [encodeSpec, decodeSpec, decodeOptStr, decodeOptInt, jlookup]

theorem decodeClusterData_encodeClusterData (cd : ClusterData) :
    decodeClusterData (encodeClusterData cd) = some cd := by
  obtain ⟨u, pw, am, sp⟩ := cd
  obtain ⟨im, ms⟩ := sp
  cases im <;> cases ms <;>
    simp [encodeClusterData, encodeSpec, decodeClusterData, decodeStrField,
      decodeSpec, decodeOptStr, decodeOptInt, jlookup]

/-! ### Key-namespace lemmas -/

theorem append_cons_free_inj {c : Char} (l₁ m₁ : List Char) {l₂ m₂ : List Char}
    (hm₁ : c ∉ m₁) (hm₂ : c ∉ m₂)
    (h : l₁ ++ c :: m₁ = l₂ ++ c :: m₂) : l₁ = l₂ ∧ m₁ = m₂ := by
  induction l₁ generalizing l₂ with
  | nil =>
      cases l₂ with
      | nil => simpa using h
      | cons b t =>
          simp only [List.nil_append, List.cons_append, List.cons.injEq] at h
          exact absurd (h.2 ▸ List.mem_append_right t (List.mem_cons_self c _)) hm₁
  | cons a t₁ ih =>
      cases l₂ with
      | nil =>
          simp only [List.nil_append, List.cons_append, List.cons.injEq] at h
          exact absurd (h.2.symm ▸ List.mem_append_right t₁ (List.mem_cons_self c _)) hm₂
      | cons b t₂ =>
          simp only [List.cons_append, List.cons.injEq] at h
          obtain ⟨rfl, h⟩ := h
          obtain ⟨rfl, rfl⟩ := ih h
          exact ⟨rfl, rfl⟩

theorem string_mk_data (l : List Char) : (String.mk l).data = l := rfl

theorem splitOnSlash_ne_nil (cs : List Char) : splitOnSlash cs ≠ [] := by
  cases cs with
  | nil => simp [splitOnSlash]
  | cons c rest =>
      rcases h : splitOnSlash rest with _ | ⟨seg, segs⟩
      · simp [splitOnSlash, h]
      · by_cases hc : c = '/' <;> simp [splitOnSlash, h, hc]

theorem splitOnSlash_slashfree (cs : List Char) (h : ('/' : Char) ∉ cs) :
    splitOnSlash cs = [cs] := by
  induction cs with
  | nil => simp [splitOnSlash]
  | cons c rest ih =>
      have hc : c ≠ '/' := fun hc => h (hc ▸ List.mem_cons_self _ _)
      have hrest := ih (fun hm => h (List.mem_cons_of_mem _ hm))
      simp [splitOnSlash, hrest, hc]

/-- Splitting a path that ends in a separator-free final segment. -/
theorem splitOnSlash_append_last (xs d : List Char) (hd : ('/' : Char) ∉ d) :
    splitOnSlash (xs ++ '/' :: d) = splitOnSlash xs ++ [d] := by
  induction xs with
  | nil => simp [splitOnSlash, splitOnSlash_slashfree d hd]
  | cons c xs ih =>
      rcases h2 : splitOnSlash xs with _ | ⟨s₀, ss⟩
      · exact absurd h2 (splitOnSlash_ne_nil _)
      · have h : splitOnSlash (xs ++ '/' :: d) = s₀ :: (ss ++ [d]) := by
          rw [ih, h2]
          simp
        by_cases hc : c = '/' <;>
          simp [splitOnSlash, h, h2, hc]

/-- The clean loop processes a concatenation left to right. -/
theorem cleanProc_append (r : Bool) (st : List (List Char))
    (l₁ l₂ : List (List Char)) :
    cleanProc r st (l₁ ++ l₂) = cleanProc r (cleanProc r st l₁) l₂ := by
  induction l₁ generalizing st with
  | nil => simp [cleanProc]
  | cons e rest ih =>
      by_cases h1 : e = []
      · simp [cleanProc, h1, ih]
      · by_cases h2 : e = ['.']
        · simp [cleanProc, h1, h2, ih]
        · by_cases h3 : e = ['.', '.']
          · rcases st with _ | ⟨top, stk⟩
            · cases r <;> simp [cleanProc, h1, h2, h3, ih]
            · by_cases ht : top = ['.', '.'] <;>
                simp [cleanProc, h1, h2, h3, ht, ih]
          · simp [cleanProc, h1, h2, h3, ih]

/-- A cluster name or document sub-path that survives cleaning
verbatim: a nonempty path segment other than `"."` and `".."` with no
separator in it. -/
def plainChars (cs : List Char) : Prop :=
  cs ≠ [] ∧ cs ≠ ['.'] ∧ cs ≠ ['.', '.'] ∧ ('/' : Char) ∉ cs

instance (cs : List Char) : Decidable (plainChars cs) := by
  unfold plainChars
  infer_instance

/-- The clean loop pushes a plain segment onto the stack. -/
theorem cleanProc_plain_cons (r : Bool) (st : List (List Char)) (d : List Char)
    (rest : List (List Char)) (hd : plainChars d) :
    cleanProc r st (d :: rest) = cleanProc r (d :: st) rest := by
  obtain ⟨h1, h2, h3, -⟩ := hd
  simp [cleanProc, h1, h2, h3]

theorem joinSegs_cons_cons (a b : List Char) (l : List (List Char)) :
    joinSegs (a :: b :: l) = a ++ '/' :: joinSegs (b :: l) := rfl

theorem joinSegs_append_last_ne_nil (R : List (List Char)) (d : List Char)
    (hd : d ≠ []) : joinSegs (R ++ [d]) ≠ [] := by
  cases R with
  | nil => simpa [joinSegs] using hd
  | cons r R' =>
      cases R' with
      | nil => simp [joinSegs]
      | cons r₂ R₂ => simp [joinSegs]

/-- Rejoining determines the final segment when the earlier segments
agree. -/
theorem joinSegs_last_inj (R : List (List Char)) (d₁ d₂ : List Char)
    (h : joinSegs (R ++ [d₁]) = joinSegs (R ++ [d₂])) : d₁ = d₂ := by
  induction R with
  | nil => simpa [joinSegs] using h
  | cons r R' ih =>
      cases R' with
      | nil =>
          simp only [List.cons_append, List.nil_append, joinSegs_cons_cons,
            joinSegs] at h
          have h' := List.append_cancel_left h
          simpa using h'
      | cons r₂ R₂ =>
          simp only [List.cons_append] at h ⊢
          rw [joinSegs_cons_cons, joinSegs_cons_cons] at h
          have h' := List.append_cancel_left h
          simp only [List.cons.injEq, true_and] at h'
          exact ih (by simpa only [List.cons_append] using h')

theorem head?_append_of_ne_nil (l₁ l₂ : List (List Char)) (h : l₁ ≠ []) :
    (l₁ ++ l₂).head? = l₁.head? := by
  cases l₁ with
  | nil => exact absurd rfl h
  | cons a t => rfl

/-- `Clean` of a path ending in a plain final segment, in terms of the
clean of its prefix: the final segment always survives, after whatever
the prefix cleans to. -/
theorem goClean_append_last (xs d : List Char) (hd : plainChars d) :
    goClean (String.mk (xs ++ '/' :: d)) =
      (if (splitOnSlash xs).head? = some [] then
        String.mk ('/' :: joinSegs ((cleanProc true [] (splitOnSlash xs)).reverse ++ [d]))
      else
        String.mk (joinSegs ((cleanProc false [] (splitOnSlash xs)).reverse ++ [d]))) := by
  obtain ⟨hne, hdot, hdd, hslash⟩ := hd
  have hsplit : splitOnSlash (xs ++ '/' :: d) = splitOnSlash xs ++ [d] :=
    splitOnSlash_append_last xs d hslash
  have hproc : ∀ r, cleanProc r [] (splitOnSlash xs ++ [d])
      = d :: cleanProc r [] (splitOnSlash xs) := by
    intro r
    rw [cleanProc_append, cleanProc_plain_cons r _ d [] ⟨hne, hdot, hdd, hslash⟩]
    rfl
  unfold goClean
  rw [if_neg (by simp)]
  simp only [string_mk_data, hsplit,
    head?_append_of_ne_nil _ _ (splitOnSlash_ne_nil xs), hproc, List.reverse_cons]
  by_cases hr : (splitOnSlash xs).head? = some []
  · rw [if_pos hr, if_pos hr]
  · rw [if_neg hr, if_neg (joinSegs_append_last_ne_nil _ d hne), if_neg hr]

/-- `Clean` of a plain segment is that segment. -/
theorem goClean_plain (s : String) (h : plainChars s.data) : goClean s = s := by
  obtain ⟨hne, hdot, hdd, hslash⟩ := h
  unfold goClean
  rw [if_neg hne]
  simp only [splitOnSlash_slashfree s.data hslash]
  rw [if_neg (by simp [hne])]
  rw [cleanProc_plain_cons false [] s.data [] ⟨hne, hdot, hdd, hslash⟩]
  simp only [cleanProc, List.reverse_cons, List.reverse_nil, List.nil_append,
    joinSegs]
  rw [if_neg hne]

/-- `filepath.Join` determines a plain final segment: whatever the first
argument is, joins with different plain last segments differ. -/
theorem joinPath_last_inj (S d₁ d₂ : String)
    (h₁ : plainChars d₁.data) (h₂ : plainChars d₂.data)
    (h : joinPath S d₁ = joinPath S d₂) : d₁ = d₂ := by
  by_cases hS : S = ""
  · have hd₁ : ¬d₁ = "" := fun he => h₁.1 (by rw [he])
    have hd₂ : ¬d₂ = "" := fun he => h₂.1 (by rw [he])
    simp only [joinPath, hS, if_pos rfl, if_neg hd₁, if_neg hd₂] at h
    rwa [goClean_plain d₁ h₁, goClean_plain d₂ h₂] at h
  · simp only [joinPath, if_neg hS] at h
    have e₁ : S ++ "/" ++ d₁ = String.mk (S.data ++ '/' :: d₁.data) := by
      apply String.ext
      simp [String.data_append, string_mk_data]
    have e₂ : S ++ "/" ++ d₂ = String.mk (S.data ++ '/' :: d₂.data) := by
      apply String.ext
      simp [String.data_append, string_mk_data]
    rw [e₁, e₂, goClean_append_last _ _ h₁, goClean_append_last _ _ h₂] at h
    by_cases hr : (splitOnSlash S.data).head? = some []
    · rw [if_pos hr, if_pos hr] at h
      have hdata := congrArg String.data h
      simp only [string_mk_data, List.cons.injEq, true_and] at hdata
      exact String.ext (joinSegs_last_inj _ _ _ hdata)
    · rw [if_neg hr, if_neg hr] at h
      have hdata := congrArg String.data h
      simp only [string_mk_data] at hdata
      exact String.ext (joinSegs_last_inj _ _ _ hdata)

/-- Within one store, the global-document key and the directory key
differ, for every cluster name. -/
theorem clusterDataPath_ne_repGroupsPath (n : String) :
    clusterDataPath n ≠ repGroupsPath n := by
  intro heq
  have := joinPath_last_inj (storePathOf n) "clusterdata" "repgroups"
    (by decide) (by decide) heq
  exact absurd this (by decide)

/-- For a plain cluster name and a plain sub-path, the cleaned document
key is the literal concatenation. -/
theorem storePathOf_plain (n : String) (hn : plainChars n.data) :
    storePathOf n = String.mk ("hodgepodge".data ++ '/' :: n.data) := by
  unfold storePathOf joinPath
  rw [if_neg (by decide : ¬("hodgepodge" : String) = "")]
  have e : ("hodgepodge" : String) ++ "/" ++ n
      = String.mk ("hodgepodge".data ++ '/' :: n.data) := by
    apply String.ext
    simp [String.data_append, string_mk_data]
  rw [e, goClean_append_last _ _ hn]
  rw [show splitOnSlash "hodgepodge".data = ["hodgepodge".data] from by decide]
  rw [if_neg (by decide)]
  rw [show cleanProc false [] ["hodgepodge".data] = ["hodgepodge".data] from by decide]
  simp [joinSegs_cons_cons, joinSegs]

/-- The document key of a plain cluster name and plain sub-path, fully
concatenated. -/
theorem docKeyPlain (n d : String) (hn : plainChars n.data)
    (hd : plainChars d.data) :
    joinPath (storePathOf n) d
      = String.mk ("hodgepodge".data ++ '/' :: n.data ++ '/' :: d.data) := by
  rw [storePathOf_plain n hn]
  unfold joinPath
  rw [if_neg (fun he => by
    have := congrArg String.data he
    simp [string_mk_data] at this)]
  have e : String.mk ("hodgepodge".data ++ '/' :: n.data) ++ "/" ++ d
      = String.mk (("hodgepodge".data ++ '/' :: n.data) ++ '/' :: d.data) := by
    apply String.ext
    simp [String.data_append, string_mk_data]
  rw [e, goClean_append_last _ _ hd]
  have hs : splitOnSlash ("hodgepodge".data ++ '/' :: n.data)
      = ["hodgepodge".data, n.data] := by
    rw [splitOnSlash_append_last _ _ hn.2.2.2]
    rw [show splitOnSlash "hodgepodge".data = ["hodgepodge".data] from by decide]
    rfl
  rw [hs]
  rw [if_neg (fun hcon => by
    simp only [List.head?_cons, Option.some.injEq] at hcon
    exact absurd hcon (by decide))]
  rw [cleanProc_plain_cons false [] _ [n.data] (by decide),
    cleanProc_plain_cons false _ _ [] hn]
  simp only [cleanProc, List.reverse_cons, List.reverse_nil, List.nil_append,
    List.cons_append, joinSegs_cons_cons, joinSegs]
  apply String.ext
  simp [string_mk_data, List.append_assoc]

/-- Document keys of stores with different plain cluster names never
coincide, for any plain document sub-paths. -/
theorem docKey_plain_ne (n₁ n₂ d₁ d₂ : String)
    (hn₁ : plainChars n₁.data) (hn₂ : plainChars n₂.data)
    (hd₁ : plainChars d₁.data) (hd₂ : plainChars d₂.data)
    (h : n₁ ≠ n₂) :
    joinPath (storePathOf n₁) d₁ ≠ joinPath (storePathOf n₂) d₂ := by
  rw [docKeyPlain n₁ d₁ hn₁ hd₁, docKeyPlain n₂ d₂ hn₂ hd₂]
  intro heq
  have hdata := congrArg String.data heq
  simp only [string_mk_data] at hdata
  obtain ⟨hl, -⟩ := append_cons_free_inj _ _ hd₁.2.2.2 hd₂.2.2.2 hdata
  have hn := List.append_cancel_left hl
  simp only [List.cons.injEq, true_and] at hn
  exact h (String.ext hn)

/-! ### Fanout lemmas -/

/-- When every push succeeds, the fanout pushes to every group, in
directory order, always in patch mode, and reports no error. -/
theorem fanoutStolonUpdate_ok (su : StolonOracle) (ns : StolonSpec)
    (gs : List (Int × RepGroup)) (h : ∀ p ∈ gs, su p.1 p.2 true ns = none) :
    fanoutStolonUpdate su ns gs =
      (gs.map (fun p => ⟨p.1, p.2, true, ns⟩), none) := by
  induction gs with
  | nil => simp [fanoutStolonUpdate]
  | cons g rest ih =>
      obtain ⟨rgid, rg⟩ := g
      have hg := h (rgid, rg) (List.mem_cons_self _ _)
      have hrest := ih (fun p hp => h p (List.mem_cons_of_mem _ hp))
      simp [fanoutStolonUpdate, hg, hrest]

/-- When the first failure is at group `g`, the fanout attempts exactly
the groups before `g` and `g` itself, and reports `g`'s error. -/
theorem fanoutStolonUpdate_first_fail (su : StolonOracle) (ns : StolonSpec)
    (pre : List (Int × RepGroup)) (g : Int × RepGroup)
    (post : List (Int × RepGroup)) (e : String)
    (hpre : ∀ p ∈ pre, su p.1 p.2 true ns = none)
    (hfail : su g.1 g.2 true ns = some e) :
    fanoutStolonUpdate su ns (pre ++ g :: post) =
      ((pre ++ [g]).map (fun p => ⟨p.1, p.2, true, ns⟩), some e) := by
  induction pre with
  | nil =>
      obtain ⟨rgid, rg⟩ := g
      simp [fanoutStolonUpdate, hfail]
  | cons p rest ih =>
      obtain ⟨rgid, rg⟩ := p
      have hp := hpre (rgid, rg) (List.mem_cons_self _ _)
      have hrest := ih (fun q hq => hpre q (List.mem_cons_of_mem _ hq))
      simp [fanoutStolonUpdate, hp, hrest]

/-- Every push the fanout makes is in patch mode. -/
theorem fanoutStolonUpdate_calls_patch (su : StolonOracle) (ns : StolonSpec)
    (gs : List (Int × RepGroup)) :
    ∀ c ∈ (fanoutStolonUpdate su ns gs).1, c.patchMode = true := by
  induction gs with
  | nil => simp [fanoutStolonUpdate]
  | cons g rest ih =>
      obtain ⟨rgid, rg⟩ := g
      intro c hc
      rcases hsu : su rgid rg true ns with _ | e
      · simp only [fanoutStolonUpdate, hsu] at hc
        rcases List.mem_cons.1 hc with rfl | hc
        · rfl
        · exact ih c hc
      · simp only [fanoutStolonUpdate, hsu, List.mem_singleton] at hc
        subst hc
        rfl

/-- Every push a completed fanout made was in patch mode. -/
theorem fanout_eq_calls_patch (su : StolonOracle) (ns : StolonSpec)
    (gs : List (Int × RepGroup)) (calls : List StolonCall) (r : Option String)
    (h : fanoutStolonUpdate su ns gs = (calls, r)) :
    ∀ c ∈ calls, c.patchMode = true := by
  have := fanoutStolonUpdate_calls_patch su ns gs
  rw [h] at this
  exact this

/-- The shape of a successful Replace-mode `UpdateStolonSpec` run: the
reads succeeded, every push succeeded, and the run wrote ClusterData with
the spec replaced. -/
theorem updateReplace_ok_shape (su : StolonOracle) (n : String)
    (kv : List (String × Json)) (S : StolonSpec)
    (hok : (UpdateStolonSpec su n kv S false).res = .ok) :
    ∃ cldata pair orgs calls,
      GetClusterData n kv = .ok (some (cldata, pair)) ∧
      GetRepGroups n kv = .ok orgs ∧
      fanoutStolonUpdate su S ((orgs.map Prod.fst).getD []) = (calls, none) ∧
      UpdateStolonSpec su n kv S false =
        ⟨.ok, PutClusterData n kv { cldata with StolonSpec := S }, calls⟩ := by
  unfold UpdateStolonSpec at hok ⊢
  split at hok
  · simp at hok
  · simp at hok
  · next cldata pair heq =>
      simp only [if_neg Bool.false_ne_true] at hok ⊢
      split at hok
      · simp at hok
      · next orgs hrg =>
          split at hok
          · simp at hok
          · next calls hfan =>
              exact ⟨cldata, pair, orgs, calls, heq, hrg, hfan, rfl⟩

/-! ### Concrete fixtures used by the witnesses -/

/-- A populated ClusterData document. -/
def cdEx : ClusterData := ⟨"su", "pw", "md5", ⟨some "existing", none⟩⟩

/-- A three-group replication-group directory. -/
def rgsEx : List (Int × RepGroup) := [(1, ⟨"s1"⟩), (2, ⟨"s2"⟩), (3, ⟨"s3"⟩)]

/-- A store holding both documents for cluster `"c"`. -/
def kvEx : List (String × Json) :=
  [(clusterDataPath "c", encodeClusterData cdEx),
   (repGroupsPath "c", encodeRepGroups rgsEx)]

/-- A requested spec document. -/
def specEx : StolonSpec := ⟨some "new", some 3⟩

/-- A collaborator for which every group push succeeds. -/
def suOk : StolonOracle := fun _ _ _ _ => none

/-- A collaborator for which group 2's push fails. -/
def suFail2 : StolonOracle := fun rgid _ _ _ => if rgid = 2 then some "boom" else none

/-! ### The claims -/

/-- C1: when a group's push fails during the fanout, `UpdateStolonSpec`
returns that group's error, attempts no later group of the directory
iteration, and leaves the store — hence the stored ClusterData and its
old spec — unchanged. -/
theorem updateSpec_stops_at_first_group_failure
    (su : StolonOracle) (n : String) (kv : List (String × Json))
    (spec : StolonSpec) (mode : Bool) (cldata : ClusterData) (pair : KVPair)
    (newspec : StolonSpec) (rpair : KVPair)
    (pre : List (Int × RepGroup)) (g : Int × RepGroup) (post : List (Int × RepGroup))
    (e : String)
    (h1 : GetClusterData n kv = .ok (some (cldata, pair)))
    (h2 : (if mode then patchClusterSpec cldata.StolonSpec spec else .ok spec :
           Except String StolonSpec) = .ok newspec)
    (h3 : GetRepGroups n kv = .ok (some (pre ++ g :: post, rpair)))
    (hpre : ∀ p ∈ pre, su p.1 p.2 true newspec = none)
    (hfail : su g.1 g.2 true newspec = some e) :
    UpdateStolonSpec su n kv spec mode =
      ⟨.err e, kv, (pre ++ [g]).map (fun p => ⟨p.1, p.2, true, newspec⟩)⟩ := by
  simp [UpdateStolonSpec, h1, h2, h3,
    fanoutStolonUpdate_first_fail su newspec pre g post e hpre hfail]

/-- C1 witness: three groups, group 2's push fails: the error is group
2's, group 3 is never attempted, the store is untouched. -/
theorem updateSpec_stops_at_first_group_failure_witness :
    UpdateStolonSpec suFail2 "c" kvEx specEx false =
      ⟨.err "boom", kvEx,
       [⟨1, ⟨"s1"⟩, true, specEx⟩, ⟨2, ⟨"s2"⟩, true, specEx⟩]⟩ :=
  updateSpec_stops_at_first_group_failure suFail2 "c" kvEx specEx false
    cdEx ⟨clusterDataPath "c", encodeClusterData cdEx, 0⟩ specEx
    ⟨repGroupsPath "c", encodeRepGroups rgsEx, 0⟩
    [(1, ⟨"s1"⟩)] (2, ⟨"s2"⟩) [(3, ⟨"s3"⟩)] "boom"
    rfl rfl rfl (by decide) rfl

/-- C2: with the ClusterData document absent, `UpdateStolonSpec` does not
return a ClusterNotInitialized (or any) error: `GetClusterData` hands it
the Go triple `(nil, nil, nil)` and the source dereferences the nil
`cldata` pointer at `cldata.StolonSpec`, a runtime panic. -/
theorem updateSpec_missing_clusterdata_panics :
    UpdateStolonSpec suOk "c" [] specEx false = ⟨.nilDeref, [], []⟩ ∧
    UpdateStolonSpec suOk "c" [] specEx true = ⟨.nilDeref, [], []⟩ :=
  ⟨rfl, rfl⟩

/-- C3: every per-group push `UpdateStolonSpec` makes passes `true` for
`StolonUpdate`'s patch argument, whatever mode the caller requested. -/
theorem updateSpec_group_pushes_always_patch_mode
    (su : StolonOracle) (n : String) (kv : List (String × Json))
    (spec : StolonSpec) (mode : Bool) :
    ∀ c ∈ (UpdateStolonSpec su n kv spec mode).calls, c.patchMode = true := by
  intro c hc
  unfold UpdateStolonSpec at hc
  cases mode
  · -- Replace mode
    simp at hc
    split at hc
    · simp at hc
    · simp at hc
    · split at hc
      · simp at hc
      · split at hc
        · rename_i hfan
          simp only at hc
          exact fanout_eq_calls_patch _ _ _ _ _ hfan c hc
        · rename_i hfan
          simp only at hc
          exact fanout_eq_calls_patch _ _ _ _ _ hfan c hc
  · -- Patch mode
    simp at hc
    split at hc
    · simp at hc
    · simp at hc
    · split at hc
      · simp at hc
      · split at hc
        · simp at hc
        · split at hc
          · rename_i hfan
            simp only at hc
            exact fanout_eq_calls_patch _ _ _ _ _ hfan c hc
          · rename_i hfan
            simp only at hc
            exact fanout_eq_calls_patch _ _ _ _ _ hfan c hc

/-- C3 witness: a Replace-mode run still pushes group 1 with patch mode
`true`. -/
theorem updateSpec_group_pushes_always_patch_mode_witness :
    (⟨1, ⟨"s1"⟩, true, specEx⟩ : StolonCall).patchMode = true :=
  updateSpec_group_pushes_always_patch_mode suOk "c" kvEx specEx false
    ⟨1, ⟨"s1"⟩, true, specEx⟩ (by decide)

/-- C4: for well-formed (object) documents, the merge keeps every base
field the patch omits at the base value, and every scalar field the patch
sets takes the patch value. -/
theorem merge_preserves_untouched_and_overrides_scalars
    (bs ps : List (String × Json)) (k : String) :
    (jlookup ps k = none →
      jget (strategicMerge (.obj bs) (.obj ps)) k = jlookup bs k) ∧
    (∀ v, jlookup ps k = some v → isScalar v = true →
      jget (strategicMerge (.obj bs) (.obj ps)) k = some v) :=
  ⟨merge_retains_omitted bs ps k,
   fun v h hv => merge_overrides_scalar bs ps k v hv h⟩

/-- C4 witness: `{a: 1, b: 2}` patched with `{b: 5}` keeps `a` and takes
`b` from the patch. -/
theorem merge_preserves_untouched_and_overrides_scalars_witness :
    jget (strategicMerge (.obj [("a", Json.num 1), ("b", Json.num 2)])
        (.obj [("b", Json.num 5)])) "a"
      = jlookup [("a", Json.num 1), ("b", Json.num 2)] "a" ∧
    jget (strategicMerge (.obj [("a", Json.num 1), ("b", Json.num 2)])
        (.obj [("b", Json.num 5)])) "b"
      = some (Json.num 5) :=
  ⟨(merge_preserves_untouched_and_overrides_scalars
      [("a", Json.num 1), ("b", Json.num 2)] [("b", Json.num 5)] "a").1 rfl,
   (merge_preserves_untouched_and_overrides_scalars
      [("a", Json.num 1), ("b", Json.num 2)] [("b", Json.num 5)] "b").2
      (Json.num 5) rfl rfl⟩

/-- C5 counterexample: a base document carrying the unrecognized field
`customField`, and a patch that does not touch it.  Decoding the base
into the typed Spec already loses the field, the merge then runs on the
typed value, and the re-encoded result does not contain `customField` —
the round trip does not preserve it. -/
theorem patch_roundtrip_drops_unknown_field_cex :
    jget (Json.obj [("initMode", Json.str "existing"), ("customField", Json.num 7)])
        "customField" = some (Json.num 7) ∧
    decodeSpec (Json.obj [("initMode", Json.str "existing"), ("customField", Json.num 7)])
      = some ⟨some "existing", none⟩ ∧
    decodeSpec (Json.obj []) = some ⟨none, none⟩ ∧
    patchClusterSpec ⟨some "existing", none⟩ ⟨none, none⟩ = .ok ⟨some "existing", none⟩ ∧
    jget (encodeSpec ⟨some "existing", none⟩) "customField" = none := by
  refine ⟨rfl, rfl, rfl, ?_, rfl⟩
  simp [patchClusterSpec, strategicMerge, mergePatchFields, encodeSpec, decodeSpec,
    decodeOptStr, decodeOptInt, jlookup, Json.isNull]

/-- C5 amended: the strategic merge itself retains a base field the patch
does not mention, recognized by the Spec schema or not; but
`patchClusterSpec`'s final unmarshal into the typed Spec drops every
field outside the schema, so an unrecognized base field never survives
the decode–merge–encode round trip (the re-encoded result cannot contain
it). -/
theorem merge_keeps_unknown_field_but_spec_decode_drops_it
    (bs ps : List (String × Json)) (k : String)
    (hk : k ∉ specSchemaKeys) (hp : jlookup ps k = none) :
    jget (strategicMerge (.obj bs) (.obj ps)) k = jlookup bs k ∧
    ∀ s : StolonSpec, jget (encodeSpec s) k = none := by
  refine ⟨merge_retains_omitted bs ps k hp, ?_⟩
  intro s
  simp only [specSchemaKeys, List.mem_cons, not_or] at hk
  obtain ⟨h₁, h₂, -⟩ := hk
  obtain ⟨im, ms⟩ := s
  cases im <;> cases ms <;>
    simp [encodeSpec, jget, jlookup, Ne.symm h₁, Ne.symm h₂]

/-- C5 amended witness: the merge keeps the unknown field `extra`; no
re-encoded Spec carries it. -/
theorem merge_keeps_unknown_field_but_spec_decode_drops_it_witness :
    jget (strategicMerge (.obj [("extra", Json.num 1)]) (.obj [])) "extra"
      = jlookup [("extra", Json.num 1)] "extra" ∧
    jget (encodeSpec ⟨some "x", some 2⟩) "extra" = none :=
  ⟨(merge_keeps_unknown_field_but_spec_decode_drops_it
      [("extra", Json.num 1)] [] "extra" (by decide) rfl).1,
   (merge_keeps_unknown_field_but_spec_decode_drops_it
      [("extra", Json.num 1)] [] "extra" (by decide) rfl).2 ⟨some "x", some 2⟩⟩

/-- C6: with a recorded master, the connection resolver returns the
user/dbname/host/port mapping from the cluster credentials and the
master's address, and it contains a password entry — equal to the stored
superuser password — exactly when the auth method is not `"trust"`. -/
theorem resolveSuperuserConnection_connstr_fields (m : Master) (cldata : ClusterData) :
    ∃ cp, GetSuConnstrMap (.ok m) cldata = .ok cp ∧
      slookup cp "user" = some cldata.PgSuUsername ∧
      slookup cp "dbname" = some "postgres" ∧
      slookup cp "host" = some m.ListenAddress ∧
      slookup cp "port" = some m.Port ∧
      slookup cp "password" =
        (if cldata.PgSuAuthMethod = "trust" then none
         else some cldata.PgSuPassword) := by
  refine ⟨_, rfl, ?_, ?_, ?_, ?_, ?_⟩ <;>
    by_cases h : cldata.PgSuAuthMethod = "trust" <;>
    simp [h, slookup]

/-- C7: a facade read of a never-written ClusterData key is the distinct
NotFound outcome `.ok none`: not an error, not a zero-valued document,
and different both from a decode error and from reading a key written
with the empty-but-valid document `{}` (which decodes to the zero
document). -/
theorem getClusterData_absent_is_distinct_notfound (n : String)
    (kv : List (String × Json)) (h : jlookup kv (clusterDataPath n) = none) :
    GetClusterData n kv = .ok none ∧
    GetClusterData n (etcdPut kv (clusterDataPath n) (Json.obj []))
      = .ok (some (⟨"", "", "", ⟨none, none⟩⟩,
                   ⟨clusterDataPath n, Json.obj [], 0⟩)) ∧
    (Except.ok none : Except String (Option (ClusterData × KVPair))) ≠
      .ok (some (⟨"", "", "", ⟨none, none⟩⟩, ⟨clusterDataPath n, Json.obj [], 0⟩)) ∧
    (Except.ok none : Except String (Option (ClusterData × KVPair))) ≠
      .error "failed to unmarshal cluster data" := by
  refine ⟨?_, ?_, by simp, by simp⟩
  · simp [GetClusterData, etcdGet, h]
  · simp [GetClusterData, etcdGet, jlookup_etcdPut_self]
    rfl

/-- C7 witness: the empty store. -/
theorem getClusterData_absent_is_distinct_notfound_witness :
    GetClusterData "c" [] = .ok none ∧
    GetClusterData "c" (etcdPut [] (clusterDataPath "c") (Json.obj []))
      = .ok (some (⟨"", "", "", ⟨none, none⟩⟩,
                   ⟨clusterDataPath "c", Json.obj [], 0⟩)) ∧
    (Except.ok none : Except String (Option (ClusterData × KVPair))) ≠
      .ok (some (⟨"", "", "", ⟨none, none⟩⟩, ⟨clusterDataPath "c", Json.obj [], 0⟩)) ∧
    (Except.ok none : Except String (Option (ClusterData × KVPair))) ≠
      .error "failed to unmarshal cluster data" :=
  getClusterData_absent_is_distinct_notfound "c" [] rfl

/-- C8: after a successful `UpdateStolonSpec(S, Replace)`, running it
again is a no-op: the second run returns the very same outcome — in
particular the stored ClusterData is identical after each of the two
runs. -/
theorem updateSpec_replace_idempotent
    (su : StolonOracle) (n : String) (kv : List (String × Json)) (S : StolonSpec)
    (hok : (UpdateStolonSpec su n kv S false).res = .ok) :
    UpdateStolonSpec su n (UpdateStolonSpec su n kv S false).kv S false
      = UpdateStolonSpec su n kv S false := by
  obtain ⟨cldata, pair, orgs, calls, hcd, hrg, hfan, hout⟩ :=
    updateReplace_ok_shape su n kv S hok
  rw [hout]
  have hget2 : GetClusterData n (PutClusterData n kv { cldata with StolonSpec := S })
      = .ok (some ({ cldata with StolonSpec := S },
          ⟨clusterDataPath n,
           encodeClusterData { cldata with StolonSpec := S }, 0⟩)) := by
    simp [GetClusterData, PutClusterData, etcdGet, jlookup_etcdPut_self,
      decodeClusterData_encodeClusterData]
  have hrg2 : GetRepGroups n (PutClusterData n kv { cldata with StolonSpec := S })
      = GetRepGroups n kv := by
    simp [GetRepGroups, PutClusterData, etcdGet,
      jlookup_etcdPut_other _ _ _ _ (clusterDataPath_ne_repGroupsPath n)]
  have hput2 : PutClusterData n (PutClusterData n kv { cldata with StolonSpec := S })
      { cldata with StolonSpec := S }
      = PutClusterData n kv { cldata with StolonSpec := S } :=
    etcdPut_of_jlookup_eq _ _ _ (jlookup_etcdPut_self _ _ _)
  simp [UpdateStolonSpec, hget2, hrg2, hrg, hfan, hput2]

/-- C8 witness: a concrete initialized store; the second Replace run
returns the first run's outcome unchanged. -/
theorem updateSpec_replace_idempotent_witness :
    UpdateStolonSpec suOk "c" (UpdateStolonSpec suOk "c" kvEx specEx false).kv
        specEx false
      = UpdateStolonSpec suOk "c" kvEx specEx false :=
  updateSpec_replace_idempotent suOk "c" kvEx specEx rfl

/-- C9 counterexample: `filepath.Join` cleans its result, so the
distinct cluster names `"a"` and `"a/"` produce identical document keys
— two stores created with these different names read and write exactly
the same documents, refuting unconditional isolation. -/
theorem store_keys_collision_cex :
    ("a" : String) ≠ "a/" ∧
    clusterDataPath "a" = clusterDataPath "a/" ∧
    repGroupsPath "a" = repGroupsPath "a/" ∧
    mastersPath "a" = mastersPath "a/" ∧
    clusterDataPath "a" = "hodgepodge/a/clusterdata" :=
  ⟨by decide, rfl, rfl, rfl, rfl⟩

/-- C9 amended: every document key is `filepath.Clean` of the fixed
prefix, the cluster name and the document's fixed sub-path joined with
the separator.  For plain cluster names — nonempty, other than `"."` and
`".."`, containing no separator — the key is the literal
`hodgepodge/<name>/<sub-path>` concatenation, and stores created with
different such names have pairwise disjoint keys.  (Names the cleaning
conflates, such as `"a"` and `"a/"`, can collide.) -/
theorem store_keys_cluster_isolated (n₁ n₂ : String)
    (hp₁ : plainChars n₁.data) (hp₂ : plainChars n₂.data) (h : n₁ ≠ n₂) :
    clusterDataPath n₁ = "hodgepodge/" ++ n₁ ++ "/clusterdata" ∧
    repGroupsPath n₁ = "hodgepodge/" ++ n₁ ++ "/repgroups" ∧
    mastersPath n₁ = "hodgepodge/" ++ n₁ ++ "/masters" ∧
    clusterDataPath n₁ ≠ clusterDataPath n₂ ∧
    repGroupsPath n₁ ≠ repGroupsPath n₂ ∧
    mastersPath n₁ ≠ mastersPath n₂ ∧
    clusterDataPath n₁ ≠ repGroupsPath n₂ ∧
    clusterDataPath n₁ ≠ mastersPath n₂ ∧
    repGroupsPath n₁ ≠ clusterDataPath n₂ ∧
    repGroupsPath n₁ ≠ mastersPath n₂ ∧
    mastersPath n₁ ≠ clusterDataPath n₂ ∧
    mastersPath n₁ ≠ repGroupsPath n₂ := by
  have shape : ∀ (n d : String), plainChars n.data → plainChars d.data →
      ∀ lit : String, lit.data = '/' :: d.data →
      joinPath (storePathOf n) d = "hodgepodge/" ++ n ++ lit := by
    intro n d hn hd lit hlit
    rw [docKeyPlain n d hn hd]
    apply String.ext
    simp [string_mk_data, String.data_append, hlit,
      show ("hodgepodge/" : String).data = "hodgepodge".data ++ ['/'] from rfl,
      List.append_assoc]
  refine ⟨shape n₁ "clusterdata" hp₁ (by decide) "/clusterdata" rfl,
    shape n₁ "repgroups" hp₁ (by decide) "/repgroups" rfl,
    shape n₁ "masters" hp₁ (by decide) "/masters" rfl,
    ?_, ?_, ?_, ?_, ?_, ?_, ?_, ?_, ?_⟩ <;>
  exact docKey_plain_ne _ _ _ _ hp₁ hp₂ (by decide) (by decide) h

/-- C9 amended witness: the plain cluster names `"a"` and `"b"`. -/
theorem store_keys_cluster_isolated_witness :
    clusterDataPath "a" = "hodgepodge/" ++ "a" ++ "/clusterdata" ∧
    repGroupsPath "a" = "hodgepodge/" ++ "a" ++ "/repgroups" ∧
    mastersPath "a" = "hodgepodge/" ++ "a" ++ "/masters" ∧
    clusterDataPath "a" ≠ clusterDataPath "b" ∧
    repGroupsPath "a" ≠ repGroupsPath "b" ∧
    mastersPath "a" ≠ mastersPath "b" ∧
    clusterDataPath "a" ≠ repGroupsPath "b" ∧
    clusterDataPath "a" ≠ mastersPath "b" ∧
    repGroupsPath "a" ≠ clusterDataPath "b" ∧
    repGroupsPath "a" ≠ mastersPath "b" ∧
    mastersPath "a" ≠ clusterDataPath "b" ∧
    mastersPath "a" ≠ repGroupsPath "b" :=
  store_keys_cluster_isolated "a" "b" (by decide) (by decide) (by decide)

end Shardman
